import Mathlib

/-!
Verification of the adaptive touch-resolution engine (KeyboardView) and the
session-scoped SQLite log store (Logger / LoggerService) of the clockworks
smartwatch-keyboard repository.

Modelling conventions:
* JavaScript double-precision numbers are modelled by real numbers; the
  probability values stored in the transition table are rationals.
* `Array.prototype.sort` is stable (ECMAScript 2019, and Hermes implements a
  stable sort), so the head of the score-sorted candidate array is the first
  candidate, in layout scan order, attaining the maximal score.  `firstMaxBy`
  computes that element directly.  The code then builds `candidatesByDistance`
  by distance-sorting a copy of the *already score-sorted* array, so its head
  is the minimal-distance candidate with distance ties resolved toward the
  higher score, then toward earlier layout order; `distRankedHead` computes
  that element directly.
* SQLite specifies no order for rows that tie on the `ORDER BY` key, and the
  query orders by `timestamp` alone, so `ORDER BY timestamp DESC` is modelled
  as a relation admitting every timestamp-sorted permutation of the filtered
  rows.
* Asynchronous I/O outcomes (openDatabaseAsync, runAsync/getAllAsync) are
  supplied by a `LogEnv` oracle so the connection-loss paths are explicit.
-/

namespace Clockworks

/-! ## Touch resolution engine (KeyboardView.tsx) -/

/-- The character class tested by the regex `/^[a-z]$/`. -/
def isLowerAZ (c : Char) : Prop := 'a' ≤ c ∧ c ≤ 'z'

instance (c : Char) : Decidable (isLowerAZ c) := by
  unfold isLowerAZ; infer_instance

/-- The transition-probability table: `table prev cand = some v` models the
JSON having a numeric entry `v` for `hitboxProbabilities[prev][cand]`, and
`none` models an absent entry. -/
def ProbTable : Type := Char → Char → Option ℚ

/-- Modelled from the spec: the contents of `@/data/hitboxProbabilities.json`
are not part of the repository sources; the spec describes the data as a
static mapping from previous letter to candidate letter to a number in
`[0,1]`, absent entries defaulting to `0.5`.  The table is therefore kept as
an abstract parameter of type `ProbTable`. -/
def DEFAULT_PROBABILITY : ℚ := 1 / 2

/-- The helper `getProbability` from KeyboardView.tsx: lower-cases both characters,
returns the default when either fails the `/^[a-z]$/` test, otherwise looks
the pair up in the table, defaulting when no numeric entry exists. -/
def getProbability (table : ProbTable) (prevKey targetKey : Char) : ℚ :=
  let p := prevKey.toLower
  let t := targetKey.toLower
  if isLowerAZ p ∧ isLowerAZ t then
    match table p t with
    | some v => v
    | none => DEFAULT_PROBABILITY
  else DEFAULT_PROBABILITY

/-- Modelled from the spec: the spec's `probability(prev, cand)` "returns the
table lookup when both characters are lowercase a–z and an entry exists;
otherwise returns a fixed default midpoint (0.5)" — stated on the characters
as given, with no lower-casing step. -/
def probSpec (table : ProbTable) (prev cand : Char) : ℚ :=
  if isLowerAZ prev ∧ isLowerAZ cand then
    match table prev cand with
    | some v => v
    | none => DEFAULT_PROBABILITY
  else DEFAULT_PROBABILITY

/-- One entry of `keyPositions`: the axis-aligned rectangle of a key in
layout-local coordinates plus its letter and grid position. -/
structure KeyPosition where
  x : ℝ
  y : ℝ
  width : ℝ
  height : ℝ
  letter : Char
  row : Nat
  col : Nat

/-- Euclidean distance from the tap point to the key rectangle's center
(`Math.sqrt(dx*dx + dy*dy)` in `onResponderRelease`). -/
noncomputable def tapDistance (lx ly : ℝ) (kp : KeyPosition) : ℝ :=
  Real.sqrt ((lx - (kp.x + kp.width / 2)) ^ 2 + (ly - (kp.y + kp.height / 2)) ^ 2)

/-- The code's `avgKeyDimension = (kp.width + kp.height) / 2`. -/
noncomputable def avgKeyDimension (kp : KeyPosition) : ℝ := (kp.width + kp.height) / 2

/-- The code's `normalizedDistance = distance / avgKeyDimension`. -/
noncomputable def normalizedDistance (lx ly : ℝ) (kp : KeyPosition) : ℝ :=
  tapDistance lx ly kp / avgKeyDimension kp

/-- The code's `distancePenalty = -Math.exp(normalizedDistance)`. -/
noncomputable def distancePenalty (lx ly : ℝ) (kp : KeyPosition) : ℝ :=
  -Real.exp (normalizedDistance lx ly kp)

/-- The per-candidate score of `onResponderRelease`: with dynamic hitboxes on
and a previous letter available, probability weight times the Gaussian falloff
`exp(-normalized^2 / 0.25)`; otherwise the pure distance penalty. -/
noncomputable def keyScore (table : ProbTable) (adaptive : Bool)
    (lastLetter : Option Char) (lx ly : ℝ) (kp : KeyPosition) : ℝ :=
  if adaptive then
    match lastLetter with
    | some prev =>
        (getProbability table prev kp.letter : ℝ) *
          Real.exp (-(normalizedDistance lx ly kp) ^ 2 / 0.25)
    | none => distancePenalty lx ly kp
  else distancePenalty lx ly kp

/-- The candidate's `touchInside` flag: boundary-inclusive containment of the
tap point in the key rectangle. -/
def touchInside (lx ly : ℝ) (kp : KeyPosition) : Prop :=
  kp.x ≤ lx ∧ lx ≤ kp.x + kp.width ∧ kp.y ≤ ly ∧ ly ≤ kp.y + kp.height

noncomputable instance (lx ly : ℝ) (kp : KeyPosition) :
    Decidable (touchInside lx ly kp) := by
  unfold touchInside; infer_instance

/-- Strict interior containment, as used by the spec's phrase "falls strictly
inside the rectangle". -/
def strictlyInside (lx ly : ℝ) (kp : KeyPosition) : Prop :=
  kp.x < lx ∧ lx < kp.x + kp.width ∧ kp.y < ly ∧ ly < kp.y + kp.height

noncomputable instance (lx ly : ℝ) (kp : KeyPosition) :
    Decidable (strictlyInside lx ly kp) := by
  unfold strictlyInside; infer_instance

/-- The sublist of keys whose rectangle contains the tap, in layout order
(the candidates satisfying `c.touchInside`). -/
noncomputable def filterInside (lx ly : ℝ) : List KeyPosition → List KeyPosition
  | [] => []
  | k :: ks =>
      if touchInside lx ly k then k :: filterInside lx ly ks
      else filterInside lx ly ks

/-- Head of the array after the stable sort `(a, b) => b.score - a.score`:
the first element, in the original order, attaining the maximal value of `f`.
The accumulator is replaced only on a strictly larger value. -/
noncomputable def firstMaxBy (f : KeyPosition → ℝ) :
    KeyPosition → List KeyPosition → KeyPosition
  | best, [] => best
  | best, c :: cs => firstMaxBy f (if f best < f c then c else best) cs

/-- Head of `[...candidates].sort((a, b) => a.distance - b.distance)`, where
the copied array is the candidates array already stably sorted by descending
score.  The head of that stable distance sort is the first element of the
score-sorted order attaining the minimal distance, i.e. the element minimal
for the lexicographic key (distance ascending, score descending, layout scan
order): the accumulator is replaced exactly when the candidate has strictly
smaller distance, or equal distance and strictly larger score. -/
noncomputable def distRankedHead (score dist : KeyPosition → ℝ) :
    KeyPosition → List KeyPosition → KeyPosition
  | best, [] => best
  | best, c :: cs =>
      distRankedHead score dist
        (if dist c < dist best ∨ (dist c = dist best ∧ score best < score c) then c
         else best) cs

/-- The running `closestDistance = Math.min(closestDistance, distance)` over
all candidates (the `Infinity` seed makes it the minimum of all distances of
the non-empty list). -/
noncomputable def closestDistance (lx ly : ℝ) (k : KeyPosition)
    (ks : List KeyPosition) : ℝ :=
  ks.foldl (fun acc kp => min acc (tapDistance lx ly kp)) (tapDistance lx ly k)

/-- Events emitted through the logger during one resolved tap. -/
inductive KbEvent where
  | changedOutcome (chFrom chTo : Char)
  | typed (c : Char)
deriving DecidableEq

/-- The flag `probabilityDidChangeOutcome`: more than one candidate, dynamic hitboxes
on, a previous letter present, the score-sorted head differs (by letter) from
`candidatesByDistance[0]` (the distance sort of the already score-sorted
array), and `candidates.find(c => c.touchInside)` is either absent or differs
(by letter) from the score-sorted head. -/
def resolveOC (table : ProbTable) (adaptive : Bool) (lastLetter : Option Char)
    (lx ly : ℝ) (k : KeyPosition) (ks : List KeyPosition) : Prop :=
  ks ≠ [] ∧ adaptive = true ∧ lastLetter.isSome = true ∧
  (firstMaxBy (keyScore table adaptive lastLetter lx ly) k ks).letter ≠
    (distRankedHead (keyScore table adaptive lastLetter lx ly) (tapDistance lx ly) k ks).letter ∧
  (match filterInside lx ly (k :: ks) with
   | [] => True
   | t :: ts =>
       (firstMaxBy (keyScore table adaptive lastLetter lx ly) t ts).letter ≠
         (firstMaxBy (keyScore table adaptive lastLetter lx ly) k ks).letter)

open Classical in
/-- The logger calls made by `onResponderRelease` for an accepted tap: the
`changed_outcome` entry when the flag is set, then the `Typed <letter>`
entry. -/
noncomputable def resolveEvents (table : ProbTable) (adaptive : Bool)
    (lastLetter : Option Char) (lx ly : ℝ) (k : KeyPosition)
    (ks : List KeyPosition) : List KbEvent :=
  (if resolveOC table adaptive lastLetter lx ly k ks then
     [KbEvent.changedOutcome
        (distRankedHead (keyScore table adaptive lastLetter lx ly)
          (tapDistance lx ly) k ks).letter
        (firstMaxBy (keyScore table adaptive lastLetter lx ly) k ks).letter]
   else []) ++
  [KbEvent.typed (firstMaxBy (keyScore table adaptive lastLetter lx ly) k ks).letter]

/-- The outcome of one accepted tap: the chosen key, the
`probabilityDidChangeOutcome` flag, and the emitted log events. -/
structure ResolveOutput where
  chosen : KeyPosition
  outcomeChanged : Prop
  events : List KbEvent

open Classical in
/-- The handler `onResponderRelease` as a pure function.  `none` models the early
returns: an unmeasured layout (`keyPositions.length === 0`) and the stray-tap
rejection (`closestDistance > min(gridWidth, gridHeight) * 0.5`), both of
which change no state and log no event. -/
noncomputable def resolve (table : ProbTable) (adaptive : Bool)
    (lastLetter : Option Char) (keyPositions : List KeyPosition)
    (gridWidth gridHeight lx ly : ℝ) : Option ResolveOutput :=
  match keyPositions with
  | [] => none
  | k :: ks =>
      if closestDistance lx ly k ks > min gridWidth gridHeight * 0.5 then none
      else
        some ⟨firstMaxBy (keyScore table adaptive lastLetter lx ly) k ks,
              resolveOC table adaptive lastLetter lx ly k ks,
              resolveEvents table adaptive lastLetter lx ly k ks⟩

/-- The element of `l` at the first position where `f` attains its maximum
over `l`: everything strictly before it scores strictly less, everything in
the list scores at most it. -/
def IsFirstMax (f : KeyPosition → ℝ) (l : List KeyPosition) (x : KeyPosition) : Prop :=
  ∃ l₁ l₂, l = l₁ ++ x :: l₂ ∧ (∀ y ∈ l₁, f y < f x) ∧ ∀ y ∈ l, f y ≤ f x

/-- The element of `l` at the first position where `f` attains its minimum
over `l`. -/
def IsFirstMin (f : KeyPosition → ℝ) (l : List KeyPosition) (x : KeyPosition) : Prop :=
  ∃ l₁ l₂, l = l₁ ++ x :: l₂ ∧ (∀ y ∈ l₁, f x < f y) ∧ ∀ y ∈ l, f x ≤ f y

/-! ## Log store (Logger.ts / LoggerService.ts) -/

/-- One row of the `logs` table.  The `timestamp` column holds ISO-8601 text;
lexicographic comparison of such strings agrees with time order, so it is
modelled by a natural number.  `dat` is the JSON-serialised `data` column. -/
structure LogRow where
  id : Nat
  timestamp : Nat
  sessionCode : String
  userId : String
  message : String
  dat : String
deriving DecidableEq

/-- The backing `logs` table: `nextId` models the AUTOINCREMENT counter, and
`rows` holds the rows in insertion (rowid) order. -/
structure LogTable where
  nextId : Nat
  rows : List LogRow
deriving DecidableEq

/-- The physical store: `none` models the database file existing without the
`logs` table having been created yet. -/
abbrev LogDb : Type := Option LogTable

/-- Rows of the store, `[]` when the table is absent. -/
def rowsOf (db : LogDb) : List LogRow :=
  match db with
  | none => []
  | some t => t.rows

/-- The AUTOINCREMENT id the next inserted row receives. -/
def nextIdOf (db : LogDb) : Nat :=
  match db with
  | none => 0
  | some t => t.nextId

/-- The statement `CREATE TABLE IF NOT EXISTS logs ...` run on initialisation. -/
def ensureTable (db : LogDb) : LogDb :=
  match db with
  | none => some ⟨0, []⟩
  | some t => some t

/-- The `INSERT INTO logs (timestamp, sessionCode, userId, message, data)`
statement; the id is assigned by the store.  A successful INSERT implies the
table exists (an absent table would have made `runAsync` throw), so the
missing-table case is normalised through `ensureTable`. -/
def insertLog (db : LogDb) (ts : Nat) (scode uid msg dat : String) : LogDb :=
  match ensureTable db with
  | none => none
  | some t => some ⟨t.nextId + 1, t.rows ++ [⟨t.nextId, ts, scode, uid, msg, dat⟩]⟩

/-- The `WHERE userId = ? AND sessionCode = ?` predicate. -/
def matchesSession (uid scode : String) (r : LogRow) : Bool :=
  r.userId == uid && r.sessionCode == scode

/-- Admissible results of the clause `ORDER BY timestamp DESC`: SQLite
returns some permutation of the input rows that is non-increasing in the
timestamp column, and specifies nothing about the relative order of rows
sharing a timestamp (the query has no secondary sort key), so the clause is a
relation, not a function. -/
def OrderedByTimestampDesc (input output : List LogRow) : Prop :=
  input.Perm output ∧ output.Pairwise (fun a b => b.timestamp ≤ a.timestamp)

/-- The query `SQLiteLoggerService.getLogsForSession`:
`SELECT * FROM logs WHERE userId = ? AND sessionCode = ? ORDER BY timestamp
DESC LIMIT ?`, with the missing-table error caught and turned into an empty
result.  `GetLogsForSession db uid scode limit res` holds iff `res` is an
admissible result of the statement on store `db`. -/
def GetLogsForSession (db : LogDb) (uid scode : String) (limit : Nat)
    (res : List LogRow) : Prop :=
  match db with
  | none => res = []
  | some t =>
      ∃ sorted,
        OrderedByTimestampDesc (t.rows.filter (matchesSession uid scode)) sorted ∧
        res = sorted.take limit

/-- The method `SQLiteLoggerService.deleteLogsForSession` restricted to the store:
`DELETE FROM logs WHERE userId = ? AND sessionCode = ?`.  The Boolean is the
method's return value: `false` only when the connection cannot be opened
(`openOk = false`); a missing table is caught and reported as success. -/
def deleteLogsForSession (openOk : Bool) (db : LogDb) (uid scode : String) :
    LogDb × Bool :=
  if openOk then
    match db with
    | none => (none, true)
    | some t => (some ⟨t.nextId, t.rows.filter (fun r => !matchesSession uid scode r)⟩, true)
  else (db, false)

/-- The mutable fields of a `SQLiteLogger` instance.  `userId` and
`sessionCode` are set by the constructor and never reassigned; `dbOpen`
models `this.db !== null`. -/
structure LoggerHandle where
  userId : String
  sessionCode : String
  isInitialized : Bool
  dbOpen : Bool
deriving DecidableEq

/-- Outcome of the asynchronous statement execution inside `log`/`getLogs`:
success, a rejection whose message contains `closed resource` /
`database is closed`, or any other failure. -/
inductive RunOutcome where
  | ok
  | closedErr
  | otherErr
deriving DecidableEq

/-- The I/O oracle for one logger call: whether
`openDatabaseAsync` + `execAsync` succeed, how the main statement resolves,
and the wall clock used for `new Date().toISOString()`. -/
structure LogEnv where
  openOk : Bool
  run : RunOutcome
  now : Nat
deriving DecidableEq

/-- The method `SQLiteLogger.initialize`: on success the database is open, the table
exists and `isInitialized` is set; on failure `isInitialized` is cleared. -/
def initLogger (openOk : Bool) (h : LoggerHandle) (db : LogDb) : LoggerHandle × LogDb :=
  if openOk then ({ h with isInitialized := true, dbOpen := true }, ensureTable db)
  else ({ h with isInitialized := false }, db)

/-- Result of one `SQLiteLogger.log` call. -/
inductive LogCallResult where
  | ignored
  | reconnectFailed
  | written
  | closedLost
  | failedOther
deriving DecidableEq

/-- State after one `SQLiteLogger.log` call. -/
structure LogStepOut where
  handle : LoggerHandle
  db : LogDb
  result : LogCallResult
deriving DecidableEq

/-- The method `SQLiteLogger.log` as a state transformer: the `!isInitialized` guard
ignores the call; a null connection triggers one `initialize` and, if that
leaves the handle unusable, the call fails; otherwise the INSERT runs and a
closed-connection rejection clears `db` and `isInitialized`. -/
def logStep (env : LogEnv) (h : LoggerHandle) (db : LogDb) (msg dat : String) :
    LogStepOut :=
  if h.isInitialized = false then ⟨h, db, .ignored⟩
  else
    let p := if h.dbOpen then (h, db) else initLogger env.openOk h db
    if p.1.isInitialized = false ∨ p.1.dbOpen = false then ⟨p.1, p.2, .reconnectFailed⟩
    else
      match env.run with
      | .ok => ⟨p.1, insertLog p.2 env.now p.1.sessionCode p.1.userId msg dat, .written⟩
      | .closedErr => ⟨{ p.1 with isInitialized := false, dbOpen := false }, p.2, .closedLost⟩
      | .otherErr => ⟨p.1, p.2, .failedOther⟩

/-! ## Session registry (LoggerService.ts) -/

/-- The composite map key `` `${userId}-${sessionCode}` ``. -/
def registryKey (userId sessionCode : String) : String :=
  userId ++ "-" ++ sessionCode

/-- The `loggers` map (insertion-ordered, as a JS `Map`) together with the
`currentLogger` pointer. -/
structure ServiceState where
  loggers : List (String × LoggerHandle)
  current : Option LoggerHandle

/-- The operation `Map.prototype.set`: replace the value under an existing key in place,
otherwise append a fresh entry. -/
def setLogger (key : String) (h : LoggerHandle) :
    List (String × LoggerHandle) → List (String × LoggerHandle)
  | [] => [(key, h)]
  | (k, v) :: rest =>
      if k == key then (key, h) :: rest else (k, v) :: setLogger key h rest

/-- The method `SQLiteLoggerService.createLogger`: return the logger registered
under the concatenated key, re-initialising it in place first when it is
inactive — `SQLiteLogger.initialize` catches its own errors (the re-throw is
commented out), so the surrounding `catch { return null }` is dead code and
the registered handle is returned even when re-initialisation fails.  For an
unregistered key, construct and initialise a new logger; it is registered and
returned only when initialisation reports it active (`isActive()`), otherwise
`null` is returned and nothing is registered. -/
def createLogger (openOk : Bool) (svc : ServiceState) (db : LogDb)
    (userId sessionCode : String) : ServiceState × LogDb × Option LoggerHandle :=
  let key := registryKey userId sessionCode
  match svc.loggers.lookup key with
  | some h =>
      if h.isInitialized then ({ svc with current := some h }, db, some h)
      else
        let p := initLogger openOk h db
        (⟨setLogger key p.1 svc.loggers, some p.1⟩, p.2, some p.1)
  | none =>
      let p := initLogger openOk ⟨userId, sessionCode, false, false⟩ db
      if p.1.isInitialized then
        (⟨setLogger key p.1 svc.loggers, some p.1⟩, p.2, some p.1)
      else (svc, p.2, none)

/-! ## Concrete instances used by counterexamples and witnesses -/

/-- The two-key row of the spec's §8 example scenario: `a` and `s`, both
20×20, centered at (10,10) and (30,10). -/
def kA : KeyPosition := ⟨0, 0, 20, 20, 'a', 1, 0⟩

/-- Second key of the §8 example scenario. -/
def kS : KeyPosition := ⟨20, 0, 20, 20, 's', 1, 1⟩

/-- Probability table of the §8 example scenario: `probability(a→s) = 0.9`,
`probability(a→a) = 0.05`, everything else absent. -/
def tblAS : ProbTable := fun p c =>
  if p = 'a' ∧ c = 'a' then some (1 / 20)
  else if p = 'a' ∧ c = 's' then some (9 / 10)
  else none

/-- A single 20×20 key used by witnesses. -/
def kW : KeyPosition := ⟨0, 0, 20, 20, 'w', 0, 1⟩

/-- The resolve output for a centered tap on the single key `kW`. -/
def outW : ResolveOutput := ⟨kW, False, [KbEvent.typed 'w']⟩

/-- A 6×12 key whose interior loses against its taller, wider neighbour under
normalized distance. -/
def kA3 : KeyPosition := ⟨0, 0, 6, 12, 'a', 0, 0⟩

/-- The 14×12 neighbour below `kA3`. -/
def kZ3 : KeyPosition := ⟨0, 12, 14, 12, 'z', 1, 0⟩

/-- The empty probability table (every lookup defaults). -/
def tblNone : ProbTable := fun _ _ => none

/-- A table assigning probability 0 to every candidate after `a`, producing
score ties between keys at different distances. -/
def tblZero : ProbTable := fun p _ => if p = 'a' then some 0 else none

/-- First key of the tie-break counterexample. -/
def kQ5 : KeyPosition := ⟨0, 0, 10, 10, 'q', 0, 0⟩

/-- Second key of the tie-break counterexample. -/
def kW5 : KeyPosition := ⟨10, 0, 10, 10, 'w', 0, 1⟩

/-! ## The claims under test, stated as predicates -/

/-- Claim C2 as stated: for every resolved adaptive tap with at least two
candidates, `outcome_changed` holds iff the score-ranked top differs from the
distance-ranked top and the tap is not strictly inside the distance-ranked
top's rectangle. -/
def c2ClaimProp : Prop :=
  ∀ (table : ProbTable) (prev : Char) (k : KeyPosition) (ks : List KeyPosition)
    (W H lx ly : ℝ) (out : ResolveOutput), ks ≠ [] →
    resolve table true (some prev) (k :: ks) W H lx ly = some out →
    (out.outcomeChanged ↔
      (out.chosen.letter ≠
        (distRankedHead (keyScore table true (some prev) lx ly)
          (tapDistance lx ly) k ks).letter ∧
       ¬strictlyInside lx ly
        (distRankedHead (keyScore table true (some prev) lx ly)
          (tapDistance lx ly) k ks)))

/-- Claim C3 as stated: in fallback mode (adaptive off, or no last letter) a
tap strictly inside a key's rectangle selects that key with
`outcome_changed = false`, and the key whose center is nearest by raw
Euclidean distance always wins. -/
def c3ClaimProp : Prop :=
  ∀ (table : ProbTable) (adaptive : Bool) (lastLetter : Option Char)
    (k : KeyPosition) (ks : List KeyPosition) (W H lx ly : ℝ) (out : ResolveOutput),
    (adaptive = false ∨ lastLetter = none) →
    resolve table adaptive lastLetter (k :: ks) W H lx ly = some out →
    (∀ kp ∈ k :: ks, strictlyInside lx ly kp →
        out.chosen = kp ∧ ¬out.outcomeChanged) ∧
    (∀ kp ∈ k :: ks, tapDistance lx ly out.chosen ≤ tapDistance lx ly kp)

/-- Claim C5 as stated: the selected candidate maximises the score, ties on
score break by smallest raw distance, and ties on both break by earliest
layout scan order. -/
def c5ClaimProp : Prop :=
  ∀ (table : ProbTable) (adaptive : Bool) (lastLetter : Option Char)
    (k : KeyPosition) (ks : List KeyPosition) (W H lx ly : ℝ) (out : ResolveOutput),
    resolve table adaptive lastLetter (k :: ks) W H lx ly = some out →
    (∀ kp ∈ k :: ks, keyScore table adaptive lastLetter lx ly kp ≤
        keyScore table adaptive lastLetter lx ly out.chosen) ∧
    (∀ kp ∈ k :: ks, keyScore table adaptive lastLetter lx ly kp =
        keyScore table adaptive lastLetter lx ly out.chosen →
        tapDistance lx ly out.chosen ≤ tapDistance lx ly kp) ∧
    (∃ l₁ l₂, k :: ks = l₁ ++ out.chosen :: l₂ ∧
      ∀ y ∈ l₁, ¬(keyScore table adaptive lastLetter lx ly y =
          keyScore table adaptive lastLetter lx ly out.chosen ∧
        tapDistance lx ly y = tapDistance lx ly out.chosen))

/-- The order claimed for query results: newest timestamp first, rows tying
on timestamp ordered by ascending id (insertion order). -/
def newerFirst (a b : LogRow) : Prop :=
  b.timestamp < a.timestamp ∨ (a.timestamp = b.timestamp ∧ a.id < b.id)

instance (a b : LogRow) : Decidable (newerFirst a b) := by
  unfold newerFirst; infer_instance

/-- Claim C6 as stated: every query result has at most `limit` rows, only
rows of the requested session, ordered newest-timestamp-first with equal
timestamps ordered by ascending id. -/
def c6ClaimProp : Prop :=
  ∀ (db : LogDb) (uid scode : String) (limit : Nat) (res : List LogRow),
    GetLogsForSession db uid scode limit res →
    res.length ≤ limit ∧
    (∀ r ∈ res, r.userId = uid ∧ r.sessionCode = scode) ∧
    res.Pairwise newerFirst

/-- Pairwise-distinct key letters (true of the actual 26-letter layout). -/
def distinctLetters (l : List KeyPosition) : Prop :=
  l.Pairwise (fun a b => a.letter ≠ b.letter)

/-- Keys of the registry map, in insertion order. -/
def svcKeys (svc : ServiceState) : List String := svc.loggers.map Prod.fst

/-- A store with three rows sharing one timestamp, two of them belonging to
session ("u", "s"). -/
def dbC6 : LogDb :=
  some ⟨3, [⟨0, 9, "s", "u", "m0", "d"⟩, ⟨1, 9, "t", "u", "m1", "d"⟩,
            ⟨2, 9, "s", "u", "m2", "d"⟩]⟩

/-- A store with two rows of session ("u", "s") sharing one timestamp. -/
def dbTie : LogDb :=
  some ⟨2, [⟨0, 9, "s", "u", "m0", "d"⟩, ⟨1, 9, "s", "u", "m1", "d"⟩]⟩

/-- An inactive handle registered in `svcInEx`. -/
def hInEx : LoggerHandle := ⟨"a", "b", false, false⟩

/-- A registry holding the inactive `hInEx` under its concatenated key. -/
def svcInEx : ServiceState := ⟨[("a-b", hInEx)], none⟩

/-! ## Lemmas: the stable-sort heads -/

theorem toLower_eq_self {c : Char} (h : isLowerAZ c) : c.toLower = c := by
  obtain ⟨h1, _⟩ := h
  have hv : 97 ≤ c.toNat := by
    simpa [Char.le_def] using h1
  unfold Char.toLower
  rw [if_neg]
  omega

theorem getProbability_eq_probSpec (table : ProbTable) {prev cand : Char}
    (hp : isLowerAZ prev) (hc : isLowerAZ cand) :
    getProbability table prev cand = probSpec table prev cand := by
  unfold getProbability probSpec
  rw [toLower_eq_self hp, toLower_eq_self hc]

theorem firstMaxBy_nil (f : KeyPosition → ℝ) (k : KeyPosition) :
    firstMaxBy f k [] = k := rfl

theorem firstMaxBy_cons (f : KeyPosition → ℝ) (k c : KeyPosition)
    (cs : List KeyPosition) :
    firstMaxBy f k (c :: cs) = firstMaxBy f (if f k < f c then c else k) cs := rfl

theorem distRankedHead_nil (score dist : KeyPosition → ℝ) (k : KeyPosition) :
    distRankedHead score dist k [] = k := rfl

theorem distRankedHead_cons (score dist : KeyPosition → ℝ) (k c : KeyPosition)
    (cs : List KeyPosition) :
    distRankedHead score dist k (c :: cs) =
      distRankedHead score dist
        (if dist c < dist k ∨ (dist c = dist k ∧ score k < score c) then c else k)
        cs := rfl

theorem filterInside_nil (lx ly : ℝ) : filterInside lx ly [] = [] := rfl

theorem filterInside_cons (lx ly : ℝ) (k : KeyPosition) (ks : List KeyPosition) :
    filterInside lx ly (k :: ks) =
      if touchInside lx ly k then k :: filterInside lx ly ks
      else filterInside lx ly ks := rfl

theorem firstMaxBy_isFirstMax (f : KeyPosition → ℝ) :
    ∀ (ks : List KeyPosition) (k : KeyPosition),
      IsFirstMax f (k :: ks) (firstMaxBy f k ks) := by
  intro ks
  induction ks with
  | nil =>
      intro k
      refine ⟨[], [], by simp [firstMaxBy_nil], by simp, ?_⟩
      intro y hy
      rw [firstMaxBy_nil]
      rcases List.mem_singleton.mp hy with rfl
      exact le_refl _
  | cons c cs ih =>
      intro k
      by_cases h : f k < f c
      · rw [firstMaxBy_cons, if_pos h]
        obtain ⟨l₁, l₂, heq, hpre, hmax⟩ := ih c
        have hcle : f c ≤ f (firstMaxBy f c cs) := hmax c (List.mem_cons_self c cs)
        refine ⟨k :: l₁, l₂, by rw [List.cons_append, ← heq], ?_, ?_⟩
        · intro y hy
          rcases List.mem_cons.mp hy with rfl | hy
          · exact lt_of_lt_of_le h hcle
          · exact hpre y hy
        · intro y hy
          rcases List.mem_cons.mp hy with rfl | hy
          · exact le_of_lt (lt_of_lt_of_le h hcle)
          · exact hmax y hy
      · rw [firstMaxBy_cons, if_neg h]
        obtain ⟨l₁, l₂, heq, hpre, hmax⟩ := ih k
        have hck : f c ≤ f k := le_of_not_lt h
        cases l₁ with
        | nil =>
            rw [List.nil_append] at heq
            injection heq with h1 h2
            refine ⟨[], c :: cs, by rw [List.nil_append, ← h1], by simp, ?_⟩
            intro y hy
            rw [← h1]
            rcases List.mem_cons.mp hy with rfl | hy
            · exact le_refl _
            rcases List.mem_cons.mp hy with rfl | hy
            · exact hck
            · have h3 := hmax y (List.mem_cons_of_mem _ hy)
              rwa [← h1] at h3
        | cons z l₁' =>
            rw [List.cons_append] at heq
            injection heq with h1 h2
            have hkr : f k < f (firstMaxBy f k cs) := by
              have h4 := hpre z (List.mem_cons_self z l₁')
              rwa [← h1] at h4
            refine ⟨k :: c :: l₁', l₂,
              by rw [List.cons_append, List.cons_append, ← h2], ?_, ?_⟩
            · intro y hy
              rcases List.mem_cons.mp hy with rfl | hy
              · exact hkr
              rcases List.mem_cons.mp hy with rfl | hy
              · exact lt_of_le_of_lt hck hkr
              · exact hpre y (List.mem_cons_of_mem _ hy)
            · intro y hy
              rcases List.mem_cons.mp hy with rfl | hy
              · exact le_of_lt hkr
              rcases List.mem_cons.mp hy with rfl | hy
              · exact le_trans hck (le_of_lt hkr)
              · exact hmax y (List.mem_cons_of_mem _ hy)

theorem isFirstMax_mem {f : KeyPosition → ℝ} {l : List KeyPosition} {x : KeyPosition}
    (h : IsFirstMax f l x) : x ∈ l := by
  obtain ⟨l₁, l₂, heq, _, _⟩ := h
  subst heq
  simp

theorem isFirstMax_unique (f : KeyPosition → ℝ) :
    ∀ (l : List KeyPosition) (x y : KeyPosition),
      IsFirstMax f l x → IsFirstMax f l y → x = y := by
  intro l
  induction l with
  | nil =>
      intro x y hx _
      obtain ⟨l₁, l₂, h, _, _⟩ := hx
      exact absurd h (by simp)
  | cons z zs ih =>
      intro x y hx hy
      obtain ⟨a, b, hab, hpa, hma⟩ := hx
      obtain ⟨c, d, hcd, hpc, hmc⟩ := hy
      cases a with
      | nil =>
          simp only [List.nil_append, List.cons.injEq] at hab
          cases c with
          | nil =>
              simp only [List.nil_append, List.cons.injEq] at hcd
              rw [← hab.1, ← hcd.1]
          | cons w c' =>
              simp only [List.cons_append, List.cons.injEq] at hcd
              exfalso
              have hzy : f z < f y := by
                have h4 := hpc w (List.mem_cons_self w c')
                rwa [← hcd.1] at h4
              have hyx : f y ≤ f x := by
                refine hma y ?_
                rw [hcd.2]
                simp
              rw [hab.1] at hzy
              exact absurd (lt_of_le_of_lt hyx hzy) (lt_irrefl _)
      | cons w a' =>
          simp only [List.cons_append, List.cons.injEq] at hab
          cases c with
          | nil =>
              simp only [List.nil_append, List.cons.injEq] at hcd
              exfalso
              have hzx : f z < f x := by
                have h4 := hpa w (List.mem_cons_self w a')
                rwa [← hab.1] at h4
              have hxy : f x ≤ f y := by
                refine hmc x ?_
                rw [hab.2]
                simp
              rw [hcd.1] at hzx
              exact absurd (lt_of_lt_of_le hzx hxy) (lt_irrefl _)
          | cons v c' =>
              simp only [List.cons_append, List.cons.injEq] at hcd
              refine ih x y ?_ ?_
              · refine ⟨a', b, hab.2,
                  fun u hu => hpa u (List.mem_cons_of_mem _ hu), ?_⟩
                intro u hu
                exact hma u (List.mem_cons_of_mem _ hu)
              · refine ⟨c', d, hcd.2,
                  fun u hu => hpc u (List.mem_cons_of_mem _ hu), ?_⟩
                intro u hu
                exact hmc u (List.mem_cons_of_mem _ hu)

theorem filterInside_append (lx ly : ℝ) (l₁ l₂ : List KeyPosition) :
    filterInside lx ly (l₁ ++ l₂) = filterInside lx ly l₁ ++ filterInside lx ly l₂ := by
  induction l₁ with
  | nil => rw [List.nil_append, filterInside_nil, List.nil_append]
  | cons k ks ih =>
      rw [List.cons_append, filterInside_cons, filterInside_cons]
      by_cases h : touchInside lx ly k
      · rw [if_pos h, if_pos h, ih, List.cons_append]
      · rw [if_neg h, if_neg h, ih]

theorem mem_filterInside {lx ly : ℝ} {l : List KeyPosition} {y : KeyPosition} :
    y ∈ filterInside lx ly l ↔ y ∈ l ∧ touchInside lx ly y := by
  induction l with
  | nil => simp [filterInside]
  | cons k ks ih =>
      by_cases h : touchInside lx ly k
      · simp only [filterInside, if_pos h, List.mem_cons, ih]
        constructor
        · rintro (rfl | ⟨hy, hins⟩)
          · exact ⟨Or.inl rfl, h⟩
          · exact ⟨Or.inr hy, hins⟩
        · rintro ⟨rfl | hy, hins⟩
          · exact Or.inl rfl
          · exact Or.inr ⟨hy, hins⟩
      · simp only [filterInside, if_neg h, List.mem_cons, ih]
        constructor
        · rintro ⟨hy, hins⟩
          exact ⟨Or.inr hy, hins⟩
        · rintro ⟨rfl | hy, hins⟩
          · exact absurd hins h
          · exact ⟨hy, hins⟩

theorem isFirstMax_filterInside {f : KeyPosition → ℝ} {lx ly : ℝ}
    {l : List KeyPosition} {x : KeyPosition} (h : IsFirstMax f l x)
    (hin : touchInside lx ly x) : IsFirstMax f (filterInside lx ly l) x := by
  obtain ⟨l₁, l₂, heq, hpre, hmax⟩ := h
  subst heq
  rw [filterInside_append]
  have hx : filterInside lx ly (x :: l₂) = x :: filterInside lx ly l₂ := by
    simp [filterInside, if_pos hin]
  rw [hx]
  refine ⟨filterInside lx ly l₁, filterInside lx ly l₂, rfl, ?_, ?_⟩
  · intro y hy
    exact hpre y (mem_filterInside.mp hy).1
  · intro y hy
    rcases List.mem_append.mp hy with hy | hy
    · exact hmax y (by simp [(mem_filterInside.mp hy).1])
    · rcases List.mem_cons.mp hy with rfl | hy
      · exact le_refl _
      · exact hmax y (by simp [(mem_filterInside.mp hy).1])

theorem distinctLetters_ne {l : List KeyPosition} (h : distinctLetters l)
    {a b : KeyPosition} (ha : a ∈ l) (hb : b ∈ l) (hne : a ≠ b) :
    a.letter ≠ b.letter := by
  unfold distinctLetters at h
  exact List.Pairwise.forall (fun x y hxy => hxy.symm) h ha hb hne

theorem lt_closestDistance {lx ly t : ℝ} {k : KeyPosition} {ks : List KeyPosition}
    (h : ∀ kp ∈ k :: ks, t < tapDistance lx ly kp) :
    t < closestDistance lx ly k ks := by
  unfold closestDistance
  have haux : ∀ (l : List KeyPosition) (acc : ℝ), t < acc →
      (∀ kp ∈ l, t < tapDistance lx ly kp) →
      t < l.foldl (fun a kp => min a (tapDistance lx ly kp)) acc := by
    intro l
    induction l with
    | nil => intro acc hacc _; simpa using hacc
    | cons c cs ih =>
        intro acc hacc hl
        simp only [List.foldl_cons]
        exact ih _ (lt_min hacc (hl c (by simp))) (fun kp hkp => hl kp (by simp [hkp]))
  exact haux ks _ (h k (by simp)) (fun kp hkp => h kp (by simp [hkp]))

theorem keyScore_fallback (table : ProbTable) {adaptive : Bool}
    {lastLetter : Option Char} (hmode : adaptive = false ∨ lastLetter = none)
    (lx ly : ℝ) (kp : KeyPosition) :
    keyScore table adaptive lastLetter lx ly kp = distancePenalty lx ly kp := by
  rcases hmode with rfl | rfl
  · simp [keyScore]
  · cases adaptive <;> simp [keyScore]

theorem resolve_nil (table : ProbTable) (adaptive : Bool)
    (lastLetter : Option Char) (W H lx ly : ℝ) :
    resolve table adaptive lastLetter [] W H lx ly = none := rfl

theorem resolve_cons (table : ProbTable) (adaptive : Bool)
    (lastLetter : Option Char) (k : KeyPosition) (ks : List KeyPosition)
    (W H lx ly : ℝ) :
    resolve table adaptive lastLetter (k :: ks) W H lx ly =
      if closestDistance lx ly k ks > min W H * 0.5 then none
      else
        some ⟨firstMaxBy (keyScore table adaptive lastLetter lx ly) k ks,
              resolveOC table adaptive lastLetter lx ly k ks,
              resolveEvents table adaptive lastLetter lx ly k ks⟩ := rfl

theorem resolve_some_elim {table : ProbTable} {adaptive : Bool}
    {lastLetter : Option Char} {k : KeyPosition} {ks : List KeyPosition}
    {W H lx ly : ℝ} {out : ResolveOutput}
    (hres : resolve table adaptive lastLetter (k :: ks) W H lx ly = some out) :
    out = ⟨firstMaxBy (keyScore table adaptive lastLetter lx ly) k ks,
           resolveOC table adaptive lastLetter lx ly k ks,
           resolveEvents table adaptive lastLetter lx ly k ks⟩ := by
  rw [resolve_cons] at hres
  by_cases hc : closestDistance lx ly k ks > min W H * 0.5
  · rw [if_pos hc] at hres
    exact absurd hres (by simp)
  · rw [if_neg hc] at hres
    exact (Option.some.inj hres).symm

/-! ## The claim theorems: touch resolution engine -/

/-- C1: with dynamic hitboxes enabled and a previous letter present, the
score of every candidate key is exactly the transition probability multiplied
by the Gaussian falloff `exp(-(d / avg(width, height))^2 / 0.25)` of the
normalized distance, where the probability is the table entry when both
characters are lowercase `a`–`z` and an entry exists, and `0.5` otherwise
(the spec-worded `probSpec`).  The lowercase hypotheses restate the spec's
data model, which only admits keys and previous letters in `a`–`z`. -/
theorem c1_adaptive_score (table : ProbTable) (prev : Char) (lx ly : ℝ)
    (kp : KeyPosition) (hp : isLowerAZ prev) (hk : isLowerAZ kp.letter) :
    keyScore table true (some prev) lx ly kp =
      (probSpec table prev kp.letter : ℝ) *
        Real.exp (-(tapDistance lx ly kp / ((kp.width + kp.height) / 2)) ^ 2 / 0.25) := by
  show (getProbability table prev kp.letter : ℝ) *
      Real.exp (-(normalizedDistance lx ly kp) ^ 2 / 0.25) = _
  rw [getProbability_eq_probSpec table hp hk]
  rfl

/-- C1 witness: the theorem evaluated at the §8 example key `a` with
previous letter `a`. -/
theorem c1_adaptive_score_witness :
    isLowerAZ 'a' ∧ isLowerAZ kA.letter ∧
    keyScore tblAS true (some 'a') 18 10 kA =
      (probSpec tblAS 'a' kA.letter : ℝ) *
        Real.exp (-(tapDistance 18 10 kA / ((kA.width + kA.height) / 2)) ^ 2 / 0.25) :=
  ⟨by decide, by decide,
   c1_adaptive_score tblAS 'a' 18 10 kA (by decide) (by decide)⟩

/-- C4: a tap farther than `0.5 * min(gridWidth, gridHeight)` from every key
center is rejected outright (no chosen key, no state change, no logged
event — the resolver returns nothing), and with an unmeasured layout (empty
geometry list) the tap is a complete no-op. -/
theorem c4_reject (table : ProbTable) (adaptive : Bool) (lastLetter : Option Char)
    (W H lx ly : ℝ) :
    resolve table adaptive lastLetter [] W H lx ly = none ∧
    ∀ (k : KeyPosition) (ks : List KeyPosition),
      (∀ kp ∈ k :: ks, min W H * 0.5 < tapDistance lx ly kp) →
      resolve table adaptive lastLetter (k :: ks) W H lx ly = none := by
  constructor
  · rfl
  · intro k ks h
    rw [resolve_cons, if_pos (lt_closestDistance h)]

/-- C4 witness: a 20×20 key centered at (10, 10) with the tap at (10, 30) on
a 4×4 layout. -/
theorem c4_reject_witness :
    (∀ kp ∈ [kW], min (4 : ℝ) 4 * 0.5 < tapDistance 10 30 kp) ∧
    resolve tblAS false none [kW] 4 4 10 30 = none := by
  have hd : tapDistance 10 30 kW = 20 := by
    unfold tapDistance kW
    norm_num
    rw [show (400 : ℝ) = 20 ^ 2 by norm_num, Real.sqrt_sq (by norm_num)]
  have hh : ∀ kp ∈ [kW], min (4 : ℝ) 4 * 0.5 < tapDistance 10 30 kp := by
    intro kp hkp
    rcases List.mem_singleton.mp hkp with rfl
    rw [hd]
    norm_num
  exact ⟨hh, (c4_reject tblAS false none 4 4 10 30).2 kW [] hh⟩

/-- C3 (amended): in fallback mode (adaptive off, or no previous letter) the
outcome-changed flag is false and the chosen key is the first key, in layout
scan order, minimising the normalized distance (raw distance divided by the
key's average dimension) — not necessarily the key with the nearest center,
and not necessarily the key strictly containing the tap, once key dimensions
differ. -/
theorem c3_fallback_amended (table : ProbTable) (adaptive : Bool)
    (lastLetter : Option Char) (k : KeyPosition) (ks : List KeyPosition)
    (W H lx ly : ℝ) (out : ResolveOutput)
    (hmode : adaptive = false ∨ lastLetter = none)
    (hres : resolve table adaptive lastLetter (k :: ks) W H lx ly = some out) :
    ¬out.outcomeChanged ∧ IsFirstMin (normalizedDistance lx ly) (k :: ks) out.chosen := by
  have hout := resolve_some_elim hres
  subst hout
  constructor
  · intro hoc
    rcases hmode with rfl | rfl
    · exact Bool.false_ne_true hoc.2.1
    · simpa using hoc.2.2.1
  · show IsFirstMin (normalizedDistance lx ly) (k :: ks)
      (firstMaxBy (keyScore table adaptive lastLetter lx ly) k ks)
    have hfe : keyScore table adaptive lastLetter lx ly =
        fun kp => distancePenalty lx ly kp :=
      funext (keyScore_fallback table hmode lx ly)
    rw [hfe]
    obtain ⟨l₁, l₂, heq, hpre, hmax⟩ :=
      firstMaxBy_isFirstMax (fun kp => distancePenalty lx ly kp) ks k
    refine ⟨l₁, l₂, heq, ?_, ?_⟩
    · intro y hy
      have h4 := hpre y hy
      simp only [distancePenalty, neg_lt_neg_iff, Real.exp_lt_exp] at h4
      exact h4
    · intro y hy
      have h4 := hmax y hy
      simp only [distancePenalty, neg_le_neg_iff, Real.exp_le_exp] at h4
      exact h4

/-- C5 (amended): for every accepted tap the selected candidate is the first
candidate, in layout scan order, attaining the maximal score; the score sort
is stable, so score ties are broken by scan order alone — raw distance plays
no part in tie-breaking. -/
theorem c5_select_amended (table : ProbTable) (adaptive : Bool)
    (lastLetter : Option Char) (k : KeyPosition) (ks : List KeyPosition)
    (W H lx ly : ℝ) (out : ResolveOutput)
    (hres : resolve table adaptive lastLetter (k :: ks) W H lx ly = some out) :
    IsFirstMax (keyScore table adaptive lastLetter lx ly) (k :: ks) out.chosen := by
  have hout := resolve_some_elim hres
  subst hout
  exact firstMaxBy_isFirstMax _ ks k

/-- C2 (amended): with dynamic hitboxes on, a previous letter present, and
pairwise-distinct key letters, `outcome_changed` holds iff there are at least
two candidates, the score-ranked top differs (by letter) from the
distance-ranked top, and the tap does not fall (boundary included) inside the
score-ranked top's rectangle — the containment test the code applies is
against the score winner, not strict containment in the distance winner. -/
theorem c2_outcome_amended (table : ProbTable) (prev : Char) (k : KeyPosition)
    (ks : List KeyPosition) (W H lx ly : ℝ) (out : ResolveOutput)
    (hlet : distinctLetters (k :: ks))
    (hres : resolve table true (some prev) (k :: ks) W H lx ly = some out) :
    (out.outcomeChanged ↔
      (ks ≠ [] ∧
       out.chosen.letter ≠
         (distRankedHead (keyScore table true (some prev) lx ly)
           (tapDistance lx ly) k ks).letter ∧
       ¬touchInside lx ly out.chosen)) := by
  have hout := resolve_some_elim hres
  subst hout
  show resolveOC table true (some prev) lx ly k ks ↔
    (ks ≠ [] ∧
     (firstMaxBy (keyScore table true (some prev) lx ly) k ks).letter ≠
       (distRankedHead (keyScore table true (some prev) lx ly)
         (tapDistance lx ly) k ks).letter ∧
     ¬touchInside lx ly (firstMaxBy (keyScore table true (some prev) lx ly) k ks))
  have hmaxtop : IsFirstMax (keyScore table true (some prev) lx ly) (k :: ks)
      (firstMaxBy (keyScore table true (some prev) lx ly) k ks) :=
    firstMaxBy_isFirstMax _ ks k
  have hE : (match filterInside lx ly (k :: ks) with
      | [] => True
      | t :: ts =>
          (firstMaxBy (keyScore table true (some prev) lx ly) t ts).letter ≠
            (firstMaxBy (keyScore table true (some prev) lx ly) k ks).letter) ↔
      ¬touchInside lx ly (firstMaxBy (keyScore table true (some prev) lx ly) k ks) := by
    by_cases hin : touchInside lx ly (firstMaxBy (keyScore table true (some prev) lx ly) k ks)
    · have hmem : firstMaxBy (keyScore table true (some prev) lx ly) k ks ∈
          filterInside lx ly (k :: ks) :=
        mem_filterInside.mpr ⟨isFirstMax_mem hmaxtop, hin⟩
      cases hfl : filterInside lx ly (k :: ks) with
      | nil =>
          rw [hfl] at hmem
          exact absurd hmem (by simp)
      | cons t ts =>
          have h1 : IsFirstMax (keyScore table true (some prev) lx ly) (t :: ts)
              (firstMaxBy (keyScore table true (some prev) lx ly) t ts) :=
            firstMaxBy_isFirstMax _ ts t
          have h2 : IsFirstMax (keyScore table true (some prev) lx ly) (t :: ts)
              (firstMaxBy (keyScore table true (some prev) lx ly) k ks) := by
            have h5 := isFirstMax_filterInside hmaxtop hin
            rwa [hfl] at h5
          have h3 := isFirstMax_unique _ _ _ _ h1 h2
          refine iff_of_false ?_ (by simp [hin])
          show ¬((firstMaxBy (keyScore table true (some prev) lx ly) t ts).letter ≠
            (firstMaxBy (keyScore table true (some prev) lx ly) k ks).letter)
          rw [h3]
          simp
    · cases hfl : filterInside lx ly (k :: ks) with
      | nil => exact iff_of_true True.intro hin
      | cons t ts =>
          show ((firstMaxBy (keyScore table true (some prev) lx ly) t ts).letter ≠
              (firstMaxBy (keyScore table true (some prev) lx ly) k ks).letter) ↔
            ¬touchInside lx ly (firstMaxBy (keyScore table true (some prev) lx ly) k ks)
          have hu : firstMaxBy (keyScore table true (some prev) lx ly) t ts ∈
              filterInside lx ly (k :: ks) := by
            rw [hfl]
            exact isFirstMax_mem (firstMaxBy_isFirstMax _ ts t)
          obtain ⟨humem, huin⟩ := mem_filterInside.mp hu
          have hne : firstMaxBy (keyScore table true (some prev) lx ly) t ts ≠
              firstMaxBy (keyScore table true (some prev) lx ly) k ks :=
            fun he => hin (he ▸ huin)
          exact iff_of_true
            (distinctLetters_ne hlet humem (isFirstMax_mem hmaxtop) hne) hin
  unfold resolveOC
  constructor
  · rintro ⟨hA, _, _, hD, hEv⟩
    exact ⟨hA, hD, hE.mp hEv⟩
  · rintro ⟨hA, hD, hE'⟩
    exact ⟨hA, rfl, rfl, hD, hE.mpr hE'⟩

/-! ## Concrete evaluations of the resolver -/

theorem not_resolveOC_single (table : ProbTable) (adaptive : Bool)
    (lastLetter : Option Char) (lx ly : ℝ) (k : KeyPosition) :
    ¬resolveOC table adaptive lastLetter lx ly k [] :=
  fun hoc => hoc.1 rfl

theorem resolveEvents_single (table : ProbTable) (adaptive : Bool)
    (lastLetter : Option Char) (lx ly : ℝ) (k : KeyPosition) :
    resolveEvents table adaptive lastLetter lx ly k [] = [KbEvent.typed k.letter] := by
  unfold resolveEvents
  rw [if_neg (not_resolveOC_single table adaptive lastLetter lx ly k), firstMaxBy_nil]
  simp

theorem closestDistance_nil (lx ly : ℝ) (k : KeyPosition) :
    closestDistance lx ly k [] = tapDistance lx ly k := rfl

theorem closestDistance_pair (lx ly : ℝ) (k c : KeyPosition) :
    closestDistance lx ly k [c] = min (tapDistance lx ly k) (tapDistance lx ly c) := rfl

theorem tapDistance_kW_center : tapDistance 10 10 kW = 0 := by
  unfold tapDistance kW
  norm_num

theorem resolve_kW_adaptive :
    resolve tblAS true (some 'a') [kW] 40 20 10 10 = some outW := by
  have hthr : ¬(closestDistance 10 10 kW [] > min (40 : ℝ) 20 * 0.5) := by
    rw [closestDistance_nil, tapDistance_kW_center]
    rw [min_eq_right (by norm_num : (20 : ℝ) ≤ 40)]
    norm_num
  have hoc : resolveOC tblAS true (some 'a') 10 10 kW [] = False :=
    eq_false (not_resolveOC_single tblAS true (some 'a') 10 10 kW)
  rw [resolve_cons, if_neg hthr, firstMaxBy_nil, hoc,
    resolveEvents_single tblAS true (some 'a') 10 10 kW]
  rfl

theorem resolve_kW_fallback :
    resolve tblNone false none [kW] 40 20 10 10 = some outW := by
  have hthr : ¬(closestDistance 10 10 kW [] > min (40 : ℝ) 20 * 0.5) := by
    rw [closestDistance_nil, tapDistance_kW_center]
    rw [min_eq_right (by norm_num : (20 : ℝ) ≤ 40)]
    norm_num
  have hoc : resolveOC tblNone false none 10 10 kW [] = False :=
    eq_false (not_resolveOC_single tblNone false none 10 10 kW)
  rw [resolve_cons, if_neg hthr, firstMaxBy_nil, hoc,
    resolveEvents_single tblNone false none 10 10 kW]
  rfl

/-- C2 amended witness: the single-key adaptive tap, on which the flag is
false and both sides of the amended equivalence are false. -/
theorem c2_outcome_amended_witness :
    distinctLetters [kW] ∧
    resolve tblAS true (some 'a') [kW] 40 20 10 10 = some outW ∧
    (outW.outcomeChanged ↔
      (([] : List KeyPosition) ≠ [] ∧
       outW.chosen.letter ≠
         (distRankedHead (keyScore tblAS true (some 'a') 10 10)
           (tapDistance 10 10) kW []).letter ∧
       ¬touchInside 10 10 outW.chosen)) :=
  ⟨by simp [distinctLetters], resolve_kW_adaptive,
   c2_outcome_amended tblAS 'a' kW [] 40 20 10 10 outW
     (by simp [distinctLetters]) resolve_kW_adaptive⟩

/-- C3 amended witness: the single-key fallback tap. -/
theorem c3_fallback_amended_witness :
    ((false = false) ∨ ((none : Option Char) = none)) ∧
    resolve tblNone false none [kW] 40 20 10 10 = some outW ∧
    (¬outW.outcomeChanged ∧ IsFirstMin (normalizedDistance 10 10) [kW] outW.chosen) :=
  ⟨Or.inl rfl, resolve_kW_fallback,
   c3_fallback_amended tblNone false none kW [] 40 20 10 10 outW
     (Or.inl rfl) resolve_kW_fallback⟩

/-- C5 amended witness: the single-key fallback tap. -/
theorem c5_select_amended_witness :
    resolve tblNone false none [kW] 40 20 10 10 = some outW ∧
    IsFirstMax (keyScore tblNone false none 10 10) [kW] outW.chosen :=
  ⟨resolve_kW_fallback,
   c5_select_amended tblNone false none kW [] 40 20 10 10 outW resolve_kW_fallback⟩

theorem tapDistance_kA : tapDistance 18 10 kA = 8 := by
  unfold tapDistance kA
  norm_num
  rw [show (64 : ℝ) = 8 ^ 2 by norm_num, Real.sqrt_sq (by norm_num)]

theorem tapDistance_kS : tapDistance 18 10 kS = 12 := by
  unfold tapDistance kS
  norm_num
  rw [show (144 : ℝ) = 12 ^ 2 by norm_num, Real.sqrt_sq (by norm_num)]

theorem keyScore_kA_eval : keyScore tblAS true (some 'a') 18 10 kA =
    (1 / 20 : ℝ) * Real.exp (-(0.64 : ℝ)) := by
  show (getProbability tblAS 'a' kA.letter : ℝ) *
      Real.exp (-(normalizedDistance 18 10 kA) ^ 2 / 0.25) = _
  have hp : getProbability tblAS 'a' kA.letter = 1 / 20 := rfl
  have hn : normalizedDistance 18 10 kA = 2 / 5 := by
    unfold normalizedDistance avgKeyDimension
    rw [tapDistance_kA]
    show (8 : ℝ) / ((kA.width + kA.height) / 2) = 2 / 5
    unfold kA
    norm_num
  rw [hp, hn]
  norm_num

theorem keyScore_kS_eval : keyScore tblAS true (some 'a') 18 10 kS =
    (9 / 10 : ℝ) * Real.exp (-(1.44 : ℝ)) := by
  show (getProbability tblAS 'a' kS.letter : ℝ) *
      Real.exp (-(normalizedDistance 18 10 kS) ^ 2 / 0.25) = _
  have hp : getProbability tblAS 'a' kS.letter = 9 / 10 := rfl
  have hn : normalizedDistance 18 10 kS = 3 / 5 := by
    unfold normalizedDistance avgKeyDimension
    rw [tapDistance_kS]
    show (12 : ℝ) / ((kS.width + kS.height) / 2) = 3 / 5
    unfold kS
    norm_num
  rw [hp, hn]
  norm_num

theorem score_kA_lt_kS : keyScore tblAS true (some 'a') 18 10 kA <
    keyScore tblAS true (some 'a') 18 10 kS := by
  rw [keyScore_kA_eval, keyScore_kS_eval]
  have h1 : Real.exp (0.8 : ℝ) < 18 :=
    calc Real.exp (0.8 : ℝ) ≤ Real.exp 1 := Real.exp_le_exp.mpr (by norm_num)
      _ < 2.7182818286 := Real.exp_one_lt_d9
      _ < 18 := by norm_num
  have h4 := Real.exp_pos (-1.44 : ℝ)
  have h5 : (1 / 20 : ℝ) * Real.exp 0.8 < 9 / 10 := by linarith
  calc (1 / 20 : ℝ) * Real.exp (-0.64)
      = ((1 / 20 : ℝ) * Real.exp 0.8) * Real.exp (-1.44) := by
        rw [mul_assoc, ← Real.exp_add]
        norm_num
    _ < (9 / 10 : ℝ) * Real.exp (-1.44) :=
        mul_lt_mul_of_pos_right h5 h4

theorem firstMaxBy_AS :
    firstMaxBy (keyScore tblAS true (some 'a') 18 10) kA [kS] = kS := by
  rw [firstMaxBy_cons, if_pos score_kA_lt_kS, firstMaxBy_nil]

theorem distRankedHead_AS :
    distRankedHead (keyScore tblAS true (some 'a') 18 10) (tapDistance 18 10)
      kA [kS] = kA := by
  have hd : ¬(tapDistance 18 10 kS < tapDistance 18 10 kA ∨
      (tapDistance 18 10 kS = tapDistance 18 10 kA ∧
        keyScore tblAS true (some 'a') 18 10 kA <
          keyScore tblAS true (some 'a') 18 10 kS)) := by
    rw [tapDistance_kA, tapDistance_kS]
    rintro (h | ⟨h, _⟩) <;> norm_num at h
  rw [distRankedHead_cons, if_neg hd, distRankedHead_nil]

theorem filterInside_AS : filterInside 18 10 [kA, kS] = [kA] := by
  have hA : touchInside 18 10 kA := by
    unfold touchInside kA
    norm_num
  have hS : ¬touchInside 18 10 kS := by
    intro h
    have h1 : (20 : ℝ) ≤ 18 := h.1
    norm_num at h1
  rw [filterInside_cons, if_pos hA, filterInside_cons, if_neg hS, filterInside_nil]

theorem resolveOC_AS : resolveOC tblAS true (some 'a') 18 10 kA [kS] := by
  unfold resolveOC
  refine ⟨by simp, rfl, rfl, ?_, ?_⟩
  · rw [firstMaxBy_AS, distRankedHead_AS]
    decide
  · rw [filterInside_AS]
    show (firstMaxBy (keyScore tblAS true (some 'a') 18 10) kA []).letter ≠
      (firstMaxBy (keyScore tblAS true (some 'a') 18 10) kA [kS]).letter
    rw [firstMaxBy_nil, firstMaxBy_AS]
    decide

theorem resolve_AS : resolve tblAS true (some 'a') [kA, kS] 40 20 18 10 =
    some ⟨kS, resolveOC tblAS true (some 'a') 18 10 kA [kS],
          resolveEvents tblAS true (some 'a') 18 10 kA [kS]⟩ := by
  have hthr : ¬(closestDistance 18 10 kA [kS] > min (40 : ℝ) 20 * 0.5) := by
    rw [closestDistance_pair, tapDistance_kA, tapDistance_kS]
    rw [min_eq_left (by norm_num : (8 : ℝ) ≤ 12),
      min_eq_right (by norm_num : (20 : ℝ) ≤ 40)]
    norm_num
  rw [resolve_cons, if_neg hthr, firstMaxBy_AS]

/-- C2 counterexample: the spec's own §8 scenario (keys `a`, `s`, previous
letter `a`, tap at (18,10)) falsifies the claim as stated — the tap lies
strictly inside the distance winner `a`, yet the code reports
`outcome_changed = true` because its containment test is applied to the score
winner `s`. -/
theorem c2_outcome_counterexample : ¬c2ClaimProp := by
  intro hcl
  have h := hcl tblAS 'a' kA [kS] 40 20 18 10 _ (by simp) resolve_AS
  rw [distRankedHead_AS] at h
  have h2 := h.mp resolveOC_AS
  refine h2.2 ?_
  unfold strictlyInside kA
  norm_num

theorem tapDistance_A3 : tapDistance (11 / 2) (23 / 2) kA3 = Real.sqrt (73 / 2) := by
  unfold tapDistance kA3
  norm_num

theorem tapDistance_Z3 : tapDistance (11 / 2) (23 / 2) kZ3 = Real.sqrt (89 / 2) := by
  unfold tapDistance kZ3
  norm_num

theorem score_A3_lt_Z3 : keyScore tblNone false none (11 / 2) (23 / 2) kA3 <
    keyScore tblNone false none (11 / 2) (23 / 2) kZ3 := by
  rw [keyScore_fallback tblNone (Or.inl rfl), keyScore_fallback tblNone (Or.inl rfl)]
  unfold distancePenalty
  rw [neg_lt_neg_iff, Real.exp_lt_exp]
  have hz : avgKeyDimension kZ3 = 13 := by
    unfold avgKeyDimension kZ3
    norm_num
  have ha : avgKeyDimension kA3 = 9 := by
    unfold avgKeyDimension kA3
    norm_num
  unfold normalizedDistance
  rw [tapDistance_A3, tapDistance_Z3, hz, ha]
  rw [div_lt_div_iff₀ (by norm_num) (by norm_num)]
  have h9 : (9 : ℝ) = Real.sqrt 81 := by
    rw [show (81 : ℝ) = 9 ^ 2 by norm_num, Real.sqrt_sq (by norm_num)]
  have h13 : (13 : ℝ) = Real.sqrt 169 := by
    rw [show (169 : ℝ) = 13 ^ 2 by norm_num, Real.sqrt_sq (by norm_num)]
  rw [h9, h13, ← Real.sqrt_mul (by norm_num), ← Real.sqrt_mul (by norm_num)]
  exact Real.sqrt_lt_sqrt (by norm_num) (by norm_num)

theorem resolve_A3Z3 :
    resolve tblNone false none [kA3, kZ3] 14 24 (11 / 2) (23 / 2) =
      some ⟨kZ3, resolveOC tblNone false none (11 / 2) (23 / 2) kA3 [kZ3],
            resolveEvents tblNone false none (11 / 2) (23 / 2) kA3 [kZ3]⟩ := by
  have hA7 : tapDistance (11 / 2) (23 / 2) kA3 < 7 := by
    rw [tapDistance_A3, show (7 : ℝ) = Real.sqrt 49 from
      by rw [show (49 : ℝ) = 7 ^ 2 by norm_num, Real.sqrt_sq (by norm_num)]]
    exact Real.sqrt_lt_sqrt (by norm_num) (by norm_num)
  have hthr : ¬(closestDistance (11 / 2) (23 / 2) kA3 [kZ3] > min (14 : ℝ) 24 * 0.5) := by
    rw [closestDistance_pair, min_eq_left (by norm_num : (14 : ℝ) ≤ 24),
      gt_iff_lt, not_lt]
    calc min (tapDistance (11 / 2) (23 / 2) kA3) (tapDistance (11 / 2) (23 / 2) kZ3)
        ≤ tapDistance (11 / 2) (23 / 2) kA3 := min_le_left _ _
      _ ≤ 7 := le_of_lt hA7
      _ ≤ 14 * 0.5 := by norm_num
  have htop : firstMaxBy (keyScore tblNone false none (11 / 2) (23 / 2)) kA3 [kZ3] = kZ3 := by
    rw [firstMaxBy_cons, if_pos score_A3_lt_Z3, firstMaxBy_nil]
  rw [resolve_cons, if_neg hthr, htop]

/-- C3 counterexample: in fallback mode with keys of different sizes (6×12
`a` above 14×12 `z`), the tap (5.5, 11.5) lies strictly inside `a` and is
closer to `a`'s center, yet the engine chooses `z`: the fallback score ranks
by normalized distance (distance over average key dimension), not by raw
distance, so neither "the containing key wins" nor "the nearest center wins"
holds. -/
theorem c3_fallback_counterexample : ¬c3ClaimProp := by
  intro hcl
  have h := hcl tblNone false none kA3 [kZ3] 14 24 (11 / 2) (23 / 2) _
    (Or.inl rfl) resolve_A3Z3
  have hstrict : strictlyInside (11 / 2) (23 / 2) kA3 := by
    unfold strictlyInside kA3
    norm_num
  have h1 := (h.1 kA3 (by simp) hstrict).1
  exact absurd (congrArg KeyPosition.letter h1) (by decide)

theorem tapDistance_kQ5 : tapDistance 18 5 kQ5 = 13 := by
  unfold tapDistance kQ5
  norm_num
  rw [show (169 : ℝ) = 13 ^ 2 by norm_num, Real.sqrt_sq (by norm_num)]

theorem tapDistance_kW5 : tapDistance 18 5 kW5 = 3 := by
  unfold tapDistance kW5
  norm_num
  rw [show (9 : ℝ) = 3 ^ 2 by norm_num, Real.sqrt_sq (by norm_num)]

theorem keyScore_kQ5_eval : keyScore tblZero true (some 'a') 18 5 kQ5 = 0 := by
  show (getProbability tblZero 'a' kQ5.letter : ℝ) *
      Real.exp (-(normalizedDistance 18 5 kQ5) ^ 2 / 0.25) = 0
  have hp : getProbability tblZero 'a' kQ5.letter = 0 := rfl
  rw [hp]
  simp

theorem keyScore_kW5_eval : keyScore tblZero true (some 'a') 18 5 kW5 = 0 := by
  show (getProbability tblZero 'a' kW5.letter : ℝ) *
      Real.exp (-(normalizedDistance 18 5 kW5) ^ 2 / 0.25) = 0
  have hp : getProbability tblZero 'a' kW5.letter = 0 := rfl
  rw [hp]
  simp

theorem resolve_Q5W5 :
    resolve tblZero true (some 'a') [kQ5, kW5] 20 10 18 5 =
      some ⟨kQ5, resolveOC tblZero true (some 'a') 18 5 kQ5 [kW5],
            resolveEvents tblZero true (some 'a') 18 5 kQ5 [kW5]⟩ := by
  have hthr : ¬(closestDistance 18 5 kQ5 [kW5] > min (20 : ℝ) 10 * 0.5) := by
    rw [closestDistance_pair, tapDistance_kQ5, tapDistance_kW5,
      min_eq_right (by norm_num : (3 : ℝ) ≤ 13),
      min_eq_right (by norm_num : (10 : ℝ) ≤ 20)]
    norm_num
  have hlt : ¬(keyScore tblZero true (some 'a') 18 5 kQ5 <
      keyScore tblZero true (some 'a') 18 5 kW5) := by
    rw [keyScore_kQ5_eval, keyScore_kW5_eval]
    exact lt_irrefl 0
  have htop : firstMaxBy (keyScore tblZero true (some 'a') 18 5) kQ5 [kW5] = kQ5 := by
    rw [firstMaxBy_cons, if_neg hlt, firstMaxBy_nil]
  rw [resolve_cons, if_neg hthr, htop]

/-- C5 counterexample: with the table assigning probability 0 to both `q` and
`w` after `a`, both scores are 0; the tap at (18, 5) is far closer to `w`
(distance 3 versus 13), yet the stable sort keeps `q` — the first key in scan
order — at the head, so the claimed smallest-distance tie-break does not
exist. -/
theorem c5_tie_counterexample : ¬c5ClaimProp := by
  intro hcl
  have h := hcl tblZero true (some 'a') kQ5 [kW5] 20 10 18 5 _ resolve_Q5W5
  have heq : keyScore tblZero true (some 'a') 18 5 kW5 =
      keyScore tblZero true (some 'a') 18 5 kQ5 := by
    rw [keyScore_kQ5_eval, keyScore_kW5_eval]
  have h2 := h.2.1 kW5 (by simp) heq
  have h3 : tapDistance 18 5 kQ5 ≤ tapDistance 18 5 kW5 := h2
  rw [tapDistance_kQ5, tapDistance_kW5] at h3
  norm_num at h3

/-! ## The claim theorems: log store and registry -/

/-- C6 counterexample: the store `dbTie` holds two rows of session ("u", "s")
with equal timestamps and ids 0 and 1; the list with id 1 before id 0 is an
admissible result of `ORDER BY timestamp DESC` (SQLite specifies no order for
rows tying on the sort key and the SQL has no id tie-break), and it violates
the claimed equal-timestamps-ordered-by-id conjunct. -/
theorem c6_query_counterexample : ¬c6ClaimProp := by
  intro hcl
  have hq : GetLogsForSession dbTie "u" "s" 2
      [⟨1, 9, "s", "u", "m1", "d"⟩, ⟨0, 9, "s", "u", "m0", "d"⟩] :=
    ⟨[⟨1, 9, "s", "u", "m1", "d"⟩, ⟨0, 9, "s", "u", "m0", "d"⟩],
     ⟨by decide, by decide⟩, by decide⟩
  have h := (hcl dbTie "u" "s" 2 _ hq).2.2
  rw [List.pairwise_cons] at h
  have h2 := h.1 _ (List.mem_singleton.mpr rfl)
  unfold newerFirst at h2
  simp at h2

/-- C6 (amended): every admissible result of the session query contains at
most `limit` rows, only rows of the requested (userId, sessionCode) pair, and
is ordered newest-timestamp-first; the relative order of rows with equal
timestamps is unspecified, since the statement orders by `timestamp` alone
and SQLite guarantees no order between rows tying on the sort key. -/
theorem c6_query_amended (db : LogDb) (uid scode : String) (limit : Nat)
    (res : List LogRow) (hq : GetLogsForSession db uid scode limit res) :
    res.length ≤ limit ∧
    (∀ r ∈ res, r.userId = uid ∧ r.sessionCode = scode) ∧
    res.Pairwise (fun a b => b.timestamp ≤ a.timestamp) := by
  cases db with
  | none =>
      have hres : res = [] := hq
      subst hres
      simp
  | some t =>
      obtain ⟨sorted, ⟨hperm, hsort⟩, rfl⟩ := hq
      refine ⟨?_, ?_, ?_⟩
      · rw [List.length_take]
        exact min_le_left _ _
      · intro r hr
        have hr2 := (List.take_sublist _ _).subset hr
        have hr3 := hperm.mem_iff.mpr hr2
        have hr4 := List.mem_filter.mp hr3
        have h5 := hr4.2
        unfold matchesSession at h5
        simp only [Bool.and_eq_true, beq_iff_eq] at h5
        exact h5
      · exact List.Pairwise.sublist (List.take_sublist _ _) hsort

/-- C6 amended witness: the theorem applied to the three-row store `dbC6`,
limit 2, and the admissible result listing the two matching rows. -/
theorem c6_query_amended_witness :
    GetLogsForSession dbC6 "u" "s" 2
      [⟨0, 9, "s", "u", "m0", "d"⟩, ⟨2, 9, "s", "u", "m2", "d"⟩] ∧
    ([⟨0, 9, "s", "u", "m0", "d"⟩, ⟨2, 9, "s", "u", "m2", "d"⟩] : List LogRow).length ≤ 2 ∧
    (∀ r ∈ ([⟨0, 9, "s", "u", "m0", "d"⟩, ⟨2, 9, "s", "u", "m2", "d"⟩] : List LogRow),
      r.userId = "u" ∧ r.sessionCode = "s") ∧
    ([⟨0, 9, "s", "u", "m0", "d"⟩, ⟨2, 9, "s", "u", "m2", "d"⟩] : List LogRow).Pairwise
      (fun a b => b.timestamp ≤ a.timestamp) := by
  have hq : GetLogsForSession dbC6 "u" "s" 2
      [⟨0, 9, "s", "u", "m0", "d"⟩, ⟨2, 9, "s", "u", "m2", "d"⟩] :=
    ⟨[⟨0, 9, "s", "u", "m0", "d"⟩, ⟨2, 9, "s", "u", "m2", "d"⟩],
     ⟨by decide, by decide⟩, by decide⟩
  exact ⟨hq, c6_query_amended dbC6 "u" "s" 2 _ hq⟩

/-- C7 (code bug evidence): a `log` call that hits a closed-connection error
clears `isInitialized` and `db`; on the very next call — even with an
environment in which reopening would succeed — the `!isInitialized` guard
returns immediately, so no re-initialisation from scratch is ever attempted,
contradicting the code's own comments ("We'll try to initialize on next log
call"). -/
theorem c7_reconnect_stuck :
    logStep ⟨true, RunOutcome.closedErr, 5⟩ ⟨"u", "s", true, true⟩
        (some ⟨0, []⟩) "m" "d" =
      ⟨⟨"u", "s", false, false⟩, some ⟨0, []⟩, LogCallResult.closedLost⟩ ∧
    logStep ⟨true, RunOutcome.ok, 6⟩ ⟨"u", "s", false, false⟩
        (some ⟨0, []⟩) "m2" "d" =
      ⟨⟨"u", "s", false, false⟩, some ⟨0, []⟩, LogCallResult.ignored⟩ :=
  ⟨rfl, rfl⟩

/-- C8: `deleteLogsForSession` (with an openable connection) reports success,
removes exactly the rows of the given (userId, sessionCode) — including as a
no-op on an absent table —, is idempotent, and a query for the session right
after the delete returns the empty list. -/
theorem c8_delete_session (db : LogDb) (uid scode : String) (limit : Nat) :
    ((deleteLogsForSession true db uid scode).2 = true) ∧
    (∀ r, r ∈ rowsOf (deleteLogsForSession true db uid scode).1 ↔
      (r ∈ rowsOf db ∧ matchesSession uid scode r = false)) ∧
    (deleteLogsForSession true (deleteLogsForSession true db uid scode).1 uid scode =
      ((deleteLogsForSession true db uid scode).1, true)) ∧
    (∀ res, GetLogsForSession (deleteLogsForSession true db uid scode).1
      uid scode limit res → res = []) := by
  cases db with
  | none =>
      refine ⟨rfl, ?_, rfl, ?_⟩
      · intro r
        simp [deleteLogsForSession, rowsOf]
      · intro res hq
        exact hq
  | some t =>
      have he : ((t.rows.filter fun r => !matchesSession uid scode r).filter
          (matchesSession uid scode)) = [] := by
        rw [List.filter_filter]
        simp
      refine ⟨rfl, ?_, ?_, ?_⟩
      · intro r
        show r ∈ (t.rows.filter fun r => !matchesSession uid scode r) ↔ _
        rw [List.mem_filter]
        simp [Bool.not_eq_true', rowsOf]
      · show deleteLogsForSession true
          (some ⟨t.nextId, t.rows.filter fun r => !matchesSession uid scode r⟩) uid scode = _
        unfold deleteLogsForSession
        simp [List.filter_filter]
      · intro res hq
        obtain ⟨sorted, ⟨hperm, _⟩, rfl⟩ := hq
        have hperm' : List.Perm
            ((t.rows.filter fun r => !matchesSession uid scode r).filter
              (matchesSession uid scode)) sorted := hperm
        rw [he] at hperm'
        have h0 : sorted = [] := hperm'.symm.eq_nil
        subst h0
        simp

/-- C8 witness: deleting session ("u", "s") from `dbC6` succeeds, and the
empty list — the only admissible result of the follow-up query — is empty. -/
theorem c8_delete_session_witness :
    GetLogsForSession (deleteLogsForSession true dbC6 "u" "s").1 "u" "s" 5 [] ∧
    (([] : List LogRow) = []) := by
  have hq : GetLogsForSession (deleteLogsForSession true dbC6 "u" "s").1 "u" "s" 5 [] :=
    ⟨[], ⟨by decide, by decide⟩, by decide⟩
  exact ⟨hq, (c8_delete_session dbC6 "u" "s" 5).2.2.2 [] hq⟩

/-- C9 counterexample: the registry key is the bare concatenation
`userId ++ "-" ++ sessionCode`, so the distinct pairs ("a", "b-c") and
("a-b", "c") collide on the key "a-b-c": opening the second session returns
the handle registered for the first (its `userId` is "a", not "a-b") instead
of a distinct registry entry. -/
theorem c9_registry_counterexample :
    ((("a" : String), ("b-c" : String)) ≠ (("a-b" : String), ("c" : String))) ∧
    registryKey "a" "b-c" = registryKey "a-b" "c" ∧
    (createLogger true (createLogger true ⟨[], none⟩ none "a" "b-c").1 none "a-b" "c").2.2 =
      some ⟨"a", "b-c", true, true⟩ :=
  ⟨by decide, by decide, by decide⟩

theorem initLogger_userId (openOk : Bool) (h : LoggerHandle) (db : LogDb) :
    (initLogger openOk h db).1.userId = h.userId := by
  cases openOk <;> rfl

theorem initLogger_sessionCode (openOk : Bool) (h : LoggerHandle) (db : LogDb) :
    (initLogger openOk h db).1.sessionCode = h.sessionCode := by
  cases openOk <;> rfl

theorem svcKeys_setLogger (key : String) (v : LoggerHandle) :
    ∀ (l : List (String × LoggerHandle)) (h : LoggerHandle),
      l.lookup key = some h →
      (setLogger key v l).map Prod.fst = l.map Prod.fst := by
  intro l
  induction l with
  | nil =>
      intro h hl
      exact absurd hl (by simp)
  | cons p rest ih =>
      intro h hl
      obtain ⟨k, w⟩ := p
      unfold setLogger
      by_cases hk : k == key
      · rw [if_pos hk]
        simp only [List.map_cons]
        rw [show key = k from (beq_iff_eq.mp hk).symm]
      · rw [if_neg hk]
        simp only [List.map_cons]
        have hke : (key == k) = false := by
          rw [beq_eq_false_iff_ne]
          intro he
          exact hk (by rw [beq_iff_eq]; exact he.symm)
        rw [List.lookup, hke] at hl
        rw [ih h hl]

/-- C9 (amended): per concatenated key the registry holds at most one handle
(keys stay duplicate-free across an open call), and an open call for a pair
whose key is registered returns that entry's handle — unchanged when it is
active, re-initialised in place when it is inactive, and returned even when
the re-initialisation fails (`initialize` never throws, so the `return null`
catch is dead) — always carrying the entry's original `userId` and
`sessionCode`.  Distinct pairs are only kept distinct when their concatenated
renderings differ (a `userId` containing "-" can alias another pair). -/
theorem c9_registry_amended (openOk : Bool) (svc : ServiceState) (db : LogDb)
    (uid scode : String) (h : LoggerHandle)
    (hnodup : (svcKeys svc).Nodup)
    (hlook : svc.loggers.lookup (registryKey uid scode) = some h) :
    ((createLogger openOk svc db uid scode).2.2 =
      some (if h.isInitialized then h else (initLogger openOk h db).1)) ∧
    ((createLogger openOk svc db uid scode).2.2.map LoggerHandle.userId =
      some h.userId) ∧
    ((createLogger openOk svc db uid scode).2.2.map LoggerHandle.sessionCode =
      some h.sessionCode) ∧
    (svcKeys (createLogger openOk svc db uid scode).1).Nodup ∧
    (h.isInitialized = true →
      createLogger openOk svc db uid scode =
        ({ svc with current := some h }, db, some h)) := by
  have hor : createLogger openOk svc db uid scode =
      if h.isInitialized then ({ svc with current := some h }, db, some h)
      else (⟨setLogger (registryKey uid scode) (initLogger openOk h db).1 svc.loggers,
             some (initLogger openOk h db).1⟩, (initLogger openOk h db).2,
            some (initLogger openOk h db).1) := by
    unfold createLogger
    simp only [hlook]
  by_cases hact : h.isInitialized
  · rw [hor, if_pos hact, if_pos hact]
    exact ⟨rfl, rfl, rfl, hnodup, fun _ => rfl⟩
  · rw [hor, if_neg hact, if_neg hact]
    refine ⟨rfl, ?_, ?_, ?_, ?_⟩
    · simp [initLogger_userId]
    · simp [initLogger_sessionCode]
    · show ((setLogger (registryKey uid scode) (initLogger openOk h db).1
          svc.loggers).map Prod.fst).Nodup
      rw [svcKeys_setLogger _ _ svc.loggers h hlook]
      exact hnodup
    · intro hc
      exact absurd hc hact

/-- C9 amended witness: opening the pair ("a", "b") on a registry holding the
inactive handle `hInEx` under key "a-b", with re-initialisation failing
(`openOk = false`), still returns the registered handle. -/
theorem c9_registry_amended_witness :
    (svcKeys svcInEx).Nodup ∧
    svcInEx.loggers.lookup (registryKey "a" "b") = some hInEx ∧
    (createLogger false svcInEx none "a" "b").2.2 =
      some (if hInEx.isInitialized then hInEx else (initLogger false hInEx none).1) :=
  ⟨by decide, by decide,
   (c9_registry_amended false svcInEx none "a" "b" hInEx (by decide) (by decide)).1⟩

/-- C10: every row a `log` call successfully inserts carries exactly the
handle's `userId` and `sessionCode` (which no operation mutates), a
successful call appends exactly one row, and an unsuccessful call appends
none — a handle never writes into another session's partition. -/
theorem c10_insert_partition (env : LogEnv) (h : LoggerHandle) (db : LogDb)
    (msg dat : String) :
    ((logStep env h db msg dat).handle.userId = h.userId ∧
     (logStep env h db msg dat).handle.sessionCode = h.sessionCode) ∧
    ((logStep env h db msg dat).result = LogCallResult.written →
      rowsOf (logStep env h db msg dat).db =
        rowsOf db ++ [⟨nextIdOf db, env.now, h.sessionCode, h.userId, msg, dat⟩]) ∧
    ((logStep env h db msg dat).result ≠ LogCallResult.written →
      rowsOf (logStep env h db msg dat).db = rowsOf db) := by
  obtain ⟨uid, scode, hini, hopen⟩ := h
  obtain ⟨openOk, run, now⟩ := env
  cases hini <;> cases hopen <;> cases openOk <;> cases run <;>
    cases db <;>
    simp [logStep, initLogger, insertLog, ensureTable, rowsOf, nextIdOf]

/-- C10 witness: a successful insert on an initialised handle appends the one
row with the handle's identifiers. -/
theorem c10_insert_partition_witness :
    (logStep ⟨true, RunOutcome.ok, 7⟩ ⟨"u", "s", true, true⟩
      (some ⟨4, []⟩) "m" "d").result = LogCallResult.written ∧
    rowsOf (logStep ⟨true, RunOutcome.ok, 7⟩ ⟨"u", "s", true, true⟩
        (some ⟨4, []⟩) "m" "d").db =
      rowsOf (some ⟨4, []⟩) ++ [⟨4, 7, "s", "u", "m", "d"⟩] :=
  ⟨rfl,
   (c10_insert_partition ⟨true, RunOutcome.ok, 7⟩ ⟨"u", "s", true, true⟩
      (some ⟨4, []⟩) "m" "d").2.1 rfl⟩

end Clockworks
